import Mathlib

/-!
A shallow embedding of the FileSorter program (`src/filesorter.py`).
Paths are plain strings; the filesystem is a list of existing paths
together with an oracle for external move failures and a flag for the
host `os.rename` overwrite behaviour.  Every definition follows the
Python source; the path helpers follow `posixpath`.
-/

/-- Model of `posixpath.basename`: everything after the last slash. -/
def basename (p : String) : String :=
  ⟨(p.data.reverse.takeWhile (fun c => c != '/')).reverse⟩

/-- Model of `posixpath.dirname`: everything up to the last slash, with
trailing slashes stripped unless the result consists only of slashes. -/
def dirname (p : String) : String :=
  let head := (p.data.reverse.dropWhile (fun c => c != '/')).reverse
  if head.all (fun c => c == '/') then ⟨head⟩
  else ⟨(head.reverse.dropWhile (fun c => c == '/')).reverse⟩

/-- Model of `posixpath.join` on two components. -/
def pathJoin (a b : String) : String :=
  if b.data.head? = some '/' then b
  else if a = "" then b
  else if a.data.getLast? = some '/' then a ++ b
  else a ++ "/" ++ b

/-- Split a file name at its last dot, `os.path.splitext` style: no
split when there is no dot or when every character before the last dot
is itself a dot (so leading dots of hidden files start no extension). -/
def splitAtLastDot (b : List Char) : List Char × List Char :=
  let r := b.reverse
  let afterDot := r.takeWhile (fun c => c != '.')
  match r.dropWhile (fun c => c != '.') with
  | [] => (b, [])
  | _ :: beforeDot =>
    if beforeDot.all (fun c => c == '.') then (b, [])
    else (beforeDot.reverse, '.' :: afterDot.reverse)

/-- Model of `os.path.splitext`: split the path into root and extension,
where only dots inside the final path component count. -/
def splitext (p : String) : String × String :=
  let r := p.data.reverse
  let tail := (r.takeWhile (fun c => c != '/')).reverse
  let dir := (r.dropWhile (fun c => c != '/')).reverse
  let se := splitAtLastDot tail
  (⟨dir ++ se.1⟩, ⟨se.2⟩)

/-- Model of Python `str.lower` (ASCII case, which covers every entry of
the extension tables). -/
def pyLower (s : String) : String := ⟨s.data.map Char.toLower⟩

/-- `IMAGE_EXTENSIONS` from `filesorter.py`. -/
def IMAGE_EXTENSIONS : List String :=
  [".jpg", ".jpeg", ".jpe", ".png", ".gif", ".bmp", ".tiff", ".tif",
   ".svg", ".webp", ".ico", ".heic", ".heif", ".raw", ".arw", ".cr2",
   ".nef", ".orf", ".dng", ".raf", ".rw2", ".pef", ".sr2", ".jxr"]

/-- `VIDEO_EXTENSIONS` from `filesorter.py`. -/
def VIDEO_EXTENSIONS : List String :=
  [".mp4", ".avi", ".mkv", ".mov", ".wmv", ".flv", ".mpeg", ".mpg",
   ".m4v", ".3gp", ".3g2", ".vob", ".rm", ".rmvb", ".m2ts", ".mts",
   ".ts", ".webm", ".divx", ".xvid", ".ogv"]

/-- `AUDIO_EXTENSIONS` from `filesorter.py`. -/
def AUDIO_EXTENSIONS : List String :=
  [".mp3", ".wav", ".aac", ".flac", ".ogg", ".wma", ".m4a", ".opus",
   ".aiff", ".alac", ".pcm", ".amr", ".ape", ".mka", ".ra", ".wv",
   ".mid", ".midi", ".ac3"]

/-- `MISCELLANEOUS_EXTENSIONS` from `filesorter.py`. -/
def MISCELLANEOUS_EXTENSIONS : List String :=
  [".pdf", ".doc", ".docx", ".xls", ".xlsx", ".ppt", ".pptx",
   ".odt", ".ods", ".odp", ".rtf", ".txt", ".tex",
   ".zip", ".rar", ".7z", ".tar", ".gz", ".bz2", ".xz", ".iso", ".dmg",
   ".exe", ".msi", ".apk", ".bat", ".cmd", ".sh", ".bash", ".app", ".jar",
   ".py", ".js", ".ts", ".html", ".htm", ".css", ".cpp", ".c", ".h", ".hpp",
   ".java", ".rb", ".go", ".rs", ".php", ".pl", ".cs", ".swift", ".kt", ".m",
   ".json", ".xml", ".yml", ".yaml", ".ini", ".cfg", ".conf",
   ".epub", ".mobi", ".azw", ".azw3",
   ".stl", ".obj", ".fbx", ".dae",
   ".ttf", ".otf", ".woff", ".woff2",
   ".log", ".csv", ".bak", ".db", ".sql", ".lnk", ".torrent"]

/-- `get_media_type` from `filesorter.py`: classify a path by its
lower-cased `splitext` extension, checking the four tables in order. -/
def get_media_type (file_path : String) : String :=
  let ext := pyLower (splitext file_path).2
  if ext ∈ IMAGE_EXTENSIONS then "image"
  else if ext ∈ VIDEO_EXTENSIONS then "video"
  else if ext ∈ AUDIO_EXTENSIONS then "audio"
  else if ext ∈ MISCELLANEOUS_EXTENSIONS then "misc"
  else "other"

/-- The same table lookup as `get_media_type`, as a function of the
already-extracted lower-cased extension alone. -/
def mediaTypeOfExt (ext : String) : String :=
  if ext ∈ IMAGE_EXTENSIONS then "image"
  else if ext ∈ VIDEO_EXTENSIONS then "video"
  else if ext ∈ AUDIO_EXTENSIONS then "audio"
  else if ext ∈ MISCELLANEOUS_EXTENSIONS then "misc"
  else "other"

/-- Modelled from the spec: the extension substring as the claim words
it, namely the text after the last dot of the whole path, empty when the
path has no dot at all. -/
def specExtensionText (p : String) : String :=
  if p.data.contains '.' then
    ⟨(p.data.reverse.takeWhile (fun c => c != '.')).reverse⟩
  else ""

/-- Characters accepted by `clean_folder_name` (regex `[A-Za-z0-9_-]`). -/
def isSafeChar (c : Char) : Bool :=
  (('A' ≤ c) && (c ≤ 'Z')) || (('a' ≤ c) && (c ≤ 'z')) ||
    (('0' ≤ c) && (c ≤ '9')) || (c == '_') || (c == '-')

/-- `clean_folder_name` from `filesorter.py`: drop one leading dot, then
replace every character outside `[A-Za-z0-9_-]` by an underscore. -/
def clean_folder_name (name : String) : String :=
  let n : List Char :=
    if name.data.head? = some '.' then name.data.drop 1 else name.data
  ⟨n.map (fun c => if isSafeChar c then c else '_')⟩

theorem str_data_append (s t : String) : (s ++ t).data = s.data ++ t.data := rfl

theorem str_ext {s t : String} (h : s.data = t.data) : s = t := by
  cases s; cases t; exact congrArg String.mk h

theorem takeWhile_append_dropWhile_cons (p : Char → Bool) (l : List Char)
    (hd : Char) (tl : List Char) (h : l.dropWhile p = hd :: tl) :
    p hd = false ∧ l.takeWhile p ++ hd :: tl = l := by
  induction l with
  | nil => simp [List.dropWhile] at h
  | cons a as ih =>
    by_cases hpa : p a = true
    · rw [List.dropWhile_cons_of_pos hpa] at h
      obtain ⟨h1, h2⟩ := ih h
      refine ⟨h1, ?_⟩
      rw [List.takeWhile_cons_of_pos hpa, List.cons_append, h2]
    · rw [List.dropWhile_cons_of_neg hpa] at h
      obtain ⟨rfl, rfl⟩ := List.cons.inj h
      refine ⟨by simpa using hpa, ?_⟩
      rw [List.takeWhile_cons_of_neg hpa]
      simp

theorem splitAtLastDot_append (b : List Char) :
    (splitAtLastDot b).1 ++ (splitAtLastDot b).2 = b := by
  simp only [splitAtLastDot]
  cases h : b.reverse.dropWhile (fun c => c != '.') with
  | nil => simp
  | cons hd tl =>
    obtain ⟨h1, h2⟩ := takeWhile_append_dropWhile_cons _ _ _ _ h
    have hdot : hd = '.' := by simpa using h1
    subst hdot
    by_cases hall : (tl.all fun c => c == '.') = true
    · simp [hall]
    · simp only [hall, if_false]
      have h3 : b = tl.reverse ++ '.' ::
          (b.reverse.takeWhile (fun c => c != '.')).reverse := by
        conv_lhs => rw [← List.reverse_reverse b, ← h2]
        simp
      exact h3.symm

theorem splitext_append (p : String) :
    (splitext p).1 ++ (splitext p).2 = p := by
  apply str_ext
  rw [str_data_append]
  show ((p.data.reverse.dropWhile (fun c => c != '/')).reverse ++
          (splitAtLastDot ((p.data.reverse.takeWhile (fun c => c != '/')).reverse)).1)
        ++ (splitAtLastDot ((p.data.reverse.takeWhile (fun c => c != '/')).reverse)).2
      = p.data
  rw [List.append_assoc, splitAtLastDot_append]
  rw [← List.reverse_append, List.takeWhile_append_dropWhile, List.reverse_reverse]

/-!
## Filesystem model

The filesystem is the list of currently existing paths (files and
directories alike, as `os.path.exists` sees them), an oracle telling
which `shutil.move` calls the host makes fail, and a flag for the host
`os.rename` behaviour on an existing destination (`true` on POSIX,
where the destination is silently replaced; `false` on hosts whose
rename refuses existing targets).
-/

structure FS where
  entries : List String
  failMove : String → String → Bool
  renameOverwrites : Bool

/-- Model of `os.path.exists`. -/
def FS.existsPath (fs : FS) (p : String) : Bool := fs.entries.contains p

/-- Model of `os.makedirs` (only called when the folder is absent). -/
def FS.makedirs (fs : FS) (p : String) : FS :=
  { fs with entries := p :: fs.entries }

/-- The `if not os.path.exists(target_folder): os.makedirs(target_folder)`
step of `move_file_to_folder`. -/
def ensuredTarget (fs : FS) (target_folder : String) : FS :=
  if fs.existsPath target_folder then fs else fs.makedirs target_folder

/-- The `while os.path.exists(dest_path)` loop of `move_file_to_folder`,
with explicit fuel; `none` stands for an execution that has not yet
found a free name within the fuel (never reached at the fuel used by
`move_file_to_folder`, which exceeds the number of existing paths). -/
def findDest (fs : FS) (target base ext : String) :
    Nat → String → Nat → Option String
  | 0, _, _ => none
  | fuel + 1, dest, counter =>
    if fs.existsPath dest then
      findDest fs target base ext fuel
        (pathJoin target (base ++ "_" ++ Nat.repr counter ++ ext)) (counter + 1)
    else some dest

/-- `move_file_to_folder` from `filesorter.py`: ensure the target folder
exists, pick the first collision-free destination name, then perform the
`shutil.move` (modelled as an atomic transfer that the `failMove` oracle
may make fail, and that fails when the source is missing).  The final
filesystem state is returned alongside the outcome. -/
def move_file_to_folder (fs : FS) (file_path target_folder : String) :
    Except String String × FS :=
  let fs1 := ensuredTarget fs target_folder
  let filename := basename file_path
  let dest0 := pathJoin target_folder filename
  let se := splitext filename
  match findDest fs1 target_folder se.1 se.2 (fs1.entries.length + 1) dest0 1 with
  | none => (.error "collision search exhausted", fs1)
  | some dest =>
    if fs1.failMove file_path dest || !(fs1.existsPath file_path) then
      (.error "move failed", fs1)
    else (.ok dest, { fs1 with entries := dest :: fs1.entries.erase file_path })

/-- Model of `os.rename`: fails when the source is missing; on an
existing destination it fails on hosts whose rename refuses overwrites
and silently replaces the destination on POSIX hosts. -/
def FS.osRename (fs : FS) (src dst : String) : Except String FS :=
  if !(fs.entries.contains src) then .error "FileNotFoundError"
  else if fs.entries.contains dst && !fs.renameOverwrites then
    .error "FileExistsError"
  else .ok { fs with entries := dst :: (fs.entries.erase src).erase dst }

/-!
## Organizer

`self.sorted_files` is a Python dict built with `setdefault`; insertion
order is preserved, so it is modelled as an association list where
`setdefaultAppend` appends the value to the key's list, creating the key
at the end when absent.
-/

abbrev Grouping := List (String × List String)

/-- `dict.setdefault(key, []).append(value)` on the ordered-dict model. -/
def setdefaultAppend (g : Grouping) (k v : String) : Grouping :=
  match g with
  | [] => [(k, [v])]
  | (k0, vs) :: rest =>
    if k0 = k then (k0, vs ++ [v]) :: rest
    else (k0, vs) :: setdefaultAppend rest k v

structure Organizer where
  root_folder : String
  files : List String
  sorted_files : Grouping

/-- `FileOrganizer.__init__`. -/
def FileOrganizer.init (root_folder : String) : Organizer :=
  { root_folder := root_folder, files := [], sorted_files := [] }

/-- First-level folder per media type in `move_files_to_hierarchy`. -/
def mediaFolderName (file : String) : String :=
  let media_type := get_media_type file
  if media_type = "image" then "images"
  else if media_type = "video" then "videos"
  else if media_type = "audio" then "audio"
  else if media_type = "misc" then "misc"
  else "others"

/-- Second-level folder in `move_files_to_hierarchy`: the cleaned
extension without leading dots, or `no_extension`. -/
def extFolderName (file : String) : String :=
  let ext := pyLower (splitext file).2
  if ext ≠ "" then clean_folder_name ⟨ext.data.dropWhile (fun c => c == '.')⟩
  else "no_extension"

/-- `os.path.join(self.root_folder, media_folder, ext_folder)`. -/
def targetFolderOf (root file : String) : String :=
  pathJoin (pathJoin root (mediaFolderName file)) (extFolderName file)

/-- `os.path.join(media_folder, ext_folder)`, the group key. -/
def groupKeyOf (file : String) : String :=
  pathJoin (mediaFolderName file) (extFolderName file)

/-- The per-file loop of `move_files_to_hierarchy`.  Returns the built
grouping, the final filesystem, the success list (source, destination)
and the reported failures (source paths), both in iteration order. -/
def hierLoop (root : String) :
    List String → Grouping → FS →
      Grouping × FS × List (String × String) × List String
  | [], g, fs => (g, fs, [], [])
  | file :: rest, g, fs =>
    let m := move_file_to_folder fs file (targetFolderOf root file)
    match m.1 with
    | .ok dest =>
      let r := hierLoop root rest (setdefaultAppend g (groupKeyOf file) dest) m.2
      (r.1, r.2.1, (file, dest) :: r.2.2.1, r.2.2.2)
    | .error _ =>
      let r := hierLoop root rest g m.2
      (r.1, r.2.1, r.2.2.1, file :: r.2.2.2)

structure HierResult where
  grouping : Grouping
  org : Organizer
  fs : FS
  succs : List (String × String)
  errs : List String

/-- `FileOrganizer.move_files_to_hierarchy`: iterate over a snapshot of
`self.files`, then replace `self.files` by the flattened values of the
new grouping (the Python list comprehension on line 260). -/
def move_files_to_hierarchy (org : Organizer) (fs : FS) : HierResult :=
  let r := hierLoop org.root_folder org.files [] fs
  { grouping := r.1
    org := { org with files := (r.1.map Prod.snd).flatten }
    fs := r.2.1
    succs := r.2.2.1
    errs := r.2.2.2 }

/-- An action takes the file path, the 1-based index and the filesystem
and either completes (its single rename) or raises. -/
abbrev FileAction := String → Nat → FS → Except String FS

/-- The `for idx, file in enumerate(..., start=1)` loop of
`apply_action`, recording each invocation and its outcome. -/
def applyLoop (action : FileAction) :
    List String → FS → Nat →
      FS × List (Nat × String) × List String × List String
  | [], fs, _ => (fs, [], [], [])
  | file :: rest, fs, idx =>
    match action file idx fs with
    | .ok fs1 =>
      let r := applyLoop action rest fs1 (idx + 1)
      (r.1, (idx, file) :: r.2.1, file :: r.2.2.1, r.2.2.2)
    | .error _ =>
      let r := applyLoop action rest fs (idx + 1)
      (r.1, (idx, file) :: r.2.1, r.2.2.1, file :: r.2.2.2)

structure ApplyResult where
  org : Organizer
  fs : FS
  calls : List (Nat × String)
  oks : List String
  errs : List String

/-- `FileOrganizer.apply_action`: report and return when the group key
is absent, otherwise run the action over the group with 1-based indices,
catching each per-file failure. -/
def apply_action (org : Organizer) (fs : FS) (group_key : String)
    (action : FileAction) : ApplyResult :=
  match org.sorted_files.lookup group_key with
  | none => ⟨org, fs, [], [], ["Group " ++ group_key ++ " not found."]⟩
  | some l =>
    let r := applyLoop action l fs 1
    ⟨org, r.1, r.2.1, r.2.2.1, r.2.2.2⟩

/-- `create_rename_action` from `filesorter.py`. -/
def create_rename_action (new_name_pattern : String) : FileAction :=
  fun file_path index fs =>
    let ext := (splitext file_path).2
    let directory := dirname file_path
    let base_name := (splitext (basename file_path)).1
    let new_name := (new_name_pattern.replace "{basename}" base_name).replace
      "{index}" (Nat.repr index)
    fs.osRename file_path (pathJoin directory (new_name ++ ext))

/-- `create_change_label_action` from `filesorter.py`. -/
def create_change_label_action (label : String) : FileAction :=
  fun file_path _ fs =>
    let base_name := basename file_path
    fs.osRename file_path (pathJoin (dirname file_path) (label ++ "_" ++ base_name))

/-!
## Video probe model

`cv2` is modelled by an oracle saying whether `VideoCapture` opens a
decoder, whether reading the frame properties raises, and the reported
dimensions; the state counts decoder handles currently open.
-/

structure CvOracle where
  opensOk : Bool
  getRaises : Bool
  frameWidth : Nat
  frameHeight : Nat

structure CvState where
  openDecoders : Nat

/-- `get_video_resolution` from `filesorter.py`: construct the capture
(opening a decoder when the container can be opened), return `none` when
`isOpened` is false, otherwise read the dimensions — the surrounding
`except` returns `none` if that raises — and call `release` only on the
path that reaches it. -/
def get_video_resolution (cv : CvOracle) (st : CvState) :
    Option (Nat × Nat) × CvState :=
  let st1 : CvState := if cv.opensOk then ⟨st.openDecoders + 1⟩ else st
  if !cv.opensOk then (none, st1)
  else if cv.getRaises then (none, st1)
  else (some (cv.frameWidth, cv.frameHeight), ⟨st1.openDecoders - 1⟩)

/-! ## Basic filesystem lemmas -/

theorem FS.existsPath_iff (fs : FS) (p : String) :
    fs.existsPath p = true ↔ p ∈ fs.entries := by
  simp [FS.existsPath, List.contains_iff_exists_mem_beq]

theorem FS.existsPath_eq_false (fs : FS) (p : String) :
    fs.existsPath p = false ↔ p ∉ fs.entries := by
  rw [← FS.existsPath_iff]
  cases fs.existsPath p <;> simp

theorem mem_ensuredTarget {fs : FS} {tf q : String} :
    q ∈ (ensuredTarget fs tf).entries ↔
      q ∈ fs.entries ∨ (fs.existsPath tf = false ∧ q = tf) := by
  unfold ensuredTarget
  cases h : fs.existsPath tf <;> (simp [FS.makedirs, h]; try tauto)

theorem subset_ensuredTarget {fs : FS} {tf : String} :
    fs.entries ⊆ (ensuredTarget fs tf).entries := by
  intro q hq
  exact mem_ensuredTarget.mpr (Or.inl hq)

theorem ensuredTarget_failMove (fs : FS) (tf : String) :
    (ensuredTarget fs tf).failMove = fs.failMove := by
  unfold ensuredTarget
  split <;> rfl

theorem ensuredTarget_renameOverwrites (fs : FS) (tf : String) :
    (ensuredTarget fs tf).renameOverwrites = fs.renameOverwrites := by
  unfold ensuredTarget
  split <;> rfl

theorem ensuredTarget_nodup {fs : FS} (tf : String) (h : fs.entries.Nodup) :
    (ensuredTarget fs tf).entries.Nodup := by
  unfold ensuredTarget
  cases htf : fs.existsPath tf with
  | true => simpa using h
  | false =>
    have : tf ∉ fs.entries := (FS.existsPath_eq_false fs tf).mp htf
    simpa [FS.makedirs, this] using h

theorem ensuredTarget_of_exists {fs : FS} {tf : String}
    (h : fs.existsPath tf = true) : ensuredTarget fs tf = fs := by
  unfold ensuredTarget
  rw [if_pos h]

/-! ## The collision loop -/

theorem findDest_some {fs : FS} {t b e : String} :
    ∀ {fuel : Nat} {dest : String} {ctr : Nat} {d : String},
      findDest fs t b e fuel dest ctr = some d →
      fs.existsPath d = false ∧
        (d = dest ∨ ∃ n, d = pathJoin t (b ++ "_" ++ Nat.repr n ++ e)) := by
  intro fuel
  induction fuel with
  | zero =>
    intro dest ctr d h
    simp [findDest] at h
  | succ n ih =>
    intro dest ctr d h
    rw [findDest] at h
    by_cases hex : fs.existsPath dest = true
    · rw [if_pos hex] at h
      obtain ⟨h1, h2⟩ := ih h
      refine ⟨h1, Or.inr ?_⟩
      rcases h2 with h2 | ⟨m, hm⟩
      · exact ⟨ctr, h2⟩
      · exact ⟨m, hm⟩
    · rw [if_neg hex] at h
      obtain rfl := Option.some.inj h
      exact ⟨Bool.not_eq_true _ ▸ Bool.of_not_eq_true hex, Or.inl rfl⟩

theorem findDest_step {fs : FS} {t b e dest : String} {fuel ctr : Nat}
    (h : fs.existsPath dest = true) :
    findDest fs t b e (fuel + 1) dest ctr =
      findDest fs t b e fuel
        (pathJoin t (b ++ "_" ++ Nat.repr ctr ++ e)) (ctr + 1) := by
  rw [findDest, if_pos h]

theorem findDest_free {fs : FS} {t b e dest : String} {fuel ctr : Nat}
    (h : fs.existsPath dest = false) :
    findDest fs t b e (fuel + 1) dest ctr = some dest := by
  rw [findDest, if_neg (by simp [h])]

/-! ## Characterizing the collision-safe mover -/

theorem mftf_ok {fs : FS} {fp tf d : String} {fs2 : FS}
    (h : move_file_to_folder fs fp tf = (.ok d, fs2)) :
    d ∉ (ensuredTarget fs tf).entries ∧ fp ∈ (ensuredTarget fs tf).entries ∧
      fs2 = { ensuredTarget fs tf with
                entries := d :: (ensuredTarget fs tf).entries.erase fp } ∧
      (∃ n, d = pathJoin tf n) := by
  simp only [move_file_to_folder] at h
  split at h
  · simp at h
  · next dest heq =>
    split at h
    · simp at h
    · next hcond =>
      obtain ⟨hd, hfs⟩ := Prod.mk.inj h
      obtain rfl := Except.ok.inj hd
      rw [Bool.not_eq_true, Bool.or_eq_false_iff] at hcond
      obtain ⟨hfail, hsrc⟩ := hcond
      obtain ⟨hfree, hshape⟩ := findDest_some heq
      refine ⟨(FS.existsPath_eq_false _ _).mp hfree, ?_, hfs.symm, ?_⟩
      · have : (ensuredTarget fs tf).existsPath fp = true := by
          cases hb : (ensuredTarget fs tf).existsPath fp
          · rw [hb] at hsrc; simp at hsrc
          · rfl
        exact (FS.existsPath_iff _ _).mp this
      · rcases hshape with rfl | ⟨n, hn⟩
        · exact ⟨basename fp, rfl⟩
        · exact ⟨_, hn⟩

theorem mftf_err {fs : FS} {fp tf e : String} {fs2 : FS}
    (h : move_file_to_folder fs fp tf = (.error e, fs2)) :
    fs2 = ensuredTarget fs tf := by
  simp only [move_file_to_folder] at h
  split at h
  · exact (Prod.mk.inj h).2.symm
  · split at h
    · exact (Prod.mk.inj h).2.symm
    · simp at h

/-- Whatever the outcome, a path other than the moved file that exists
before `move_file_to_folder` still exists afterwards, and no successful
destination equals it. -/
theorem mftf_keeps {fs : FS} {fp q : String} (tf : String)
    (hq : q ∈ fs.entries) (hne : q ≠ fp) :
    q ∈ (move_file_to_folder fs fp tf).2.entries ∧
      (∀ d, (move_file_to_folder fs fp tf).1 = .ok d → d ≠ q) := by
  rcases hr : move_file_to_folder fs fp tf with ⟨out, fs2⟩
  have hq1 : q ∈ (ensuredTarget fs tf).entries := subset_ensuredTarget hq
  cases out with
  | ok d =>
    obtain ⟨hdfree, _, rfl, _⟩ := mftf_ok hr
    constructor
    · exact List.mem_cons_of_mem _ ((List.mem_erase_of_ne hne).mpr hq1)
    · intro d2 hd2 hcontra
      obtain rfl := Except.ok.inj hd2
      exact hdfree (hcontra ▸ hq1)
  | error e =>
    obtain rfl := mftf_err hr
    exact ⟨hq1, by intro d hd; simp at hd⟩

/-! ## Ordered-dict lemmas -/

theorem lookup_setdefaultAppend_self (g : Grouping) (k v : String) :
    (setdefaultAppend g k v).lookup k = some (((g.lookup k).getD []) ++ [v]) := by
  induction g with
  | nil => simp [setdefaultAppend, List.lookup]
  | cons p rest ih =>
    obtain ⟨k0, vs⟩ := p
    by_cases hk : k0 = k
    · subst hk
      simp [setdefaultAppend, List.lookup]
    · have hb : (k == k0) = false := beq_eq_false_iff_ne.mpr (Ne.symm hk)
      simp [setdefaultAppend, hk, List.lookup, hb, ih]

theorem lookup_setdefaultAppend_ne (g : Grouping) (k v k' : String)
    (h : k' ≠ k) :
    (setdefaultAppend g k v).lookup k' = g.lookup k' := by
  have hb : (k' == k) = false := beq_eq_false_iff_ne.mpr h
  induction g with
  | nil => simp [setdefaultAppend, List.lookup, hb]
  | cons p rest ih =>
    obtain ⟨k0, vs⟩ := p
    by_cases hk : k0 = k
    · subst hk
      simp [setdefaultAppend, List.lookup, hb]
    · simp [setdefaultAppend, hk, List.lookup, ih]

theorem mem_lookup_setdefaultAppend {g : Grouping} {k' d : String}
    (k v : String) (h : d ∈ (g.lookup k').getD []) :
    d ∈ ((setdefaultAppend g k v).lookup k').getD [] := by
  by_cases hk : k' = k
  · subst hk
    rw [lookup_setdefaultAppend_self]
    exact List.mem_append_left _ h
  · rw [lookup_setdefaultAppend_ne _ _ _ _ hk]
    exact h

theorem mem_lookup_setdefaultAppend_new (g : Grouping) (k v : String) :
    v ∈ ((setdefaultAppend g k v).lookup k).getD [] := by
  rw [lookup_setdefaultAppend_self]
  exact List.mem_append_right _ (List.mem_singleton.mpr rfl)

theorem flatten_setdefaultAppend_perm (g : Grouping) (k v : String) :
    ((setdefaultAppend g k v).map Prod.snd).flatten.Perm
      ((g.map Prod.snd).flatten ++ [v]) := by
  induction g with
  | nil => simp [setdefaultAppend]
  | cons p rest ih =>
    obtain ⟨k0, vs⟩ := p
    by_cases hk : k0 = k
    · subst hk
      simp only [setdefaultAppend]
      rw [if_true]
      have h1 : (((k0, vs ++ [v]) :: rest).map Prod.snd).flatten
          = vs ++ ([v] ++ (rest.map Prod.snd).flatten) := by simp
      have h2 : ((((k0, vs) :: rest).map Prod.snd).flatten ++ [v])
          = vs ++ ((rest.map Prod.snd).flatten ++ [v]) := by simp
      rw [h1, h2]
      exact List.Perm.append_left _ List.perm_append_comm
    · simp only [setdefaultAppend]
      rw [if_neg hk]
      have h1 : (((k0, vs) :: setdefaultAppend rest k v).map Prod.snd).flatten
          = vs ++ ((setdefaultAppend rest k v).map Prod.snd).flatten := by simp
      have h2 : ((((k0, vs) :: rest).map Prod.snd).flatten ++ [v])
          = vs ++ ((rest.map Prod.snd).flatten ++ [v]) := by simp
      rw [h1, h2]
      exact List.Perm.append_left _ ih

/-! ## Hierarchy-move loop invariants -/

theorem eq_pair_of_fst {α β : Type} {p : α × β} {a : α} (h : p.1 = a) :
    p = (a, p.2) := by
  rw [← h]

theorem hierLoop_counts (root : String) :
    ∀ (files : List String) (g : Grouping) (fs : FS),
      (hierLoop root files g fs).2.2.1.length +
        (hierLoop root files g fs).2.2.2.length = files.length := by
  intro files
  induction files with
  | nil =>
    intro g fs
    simp [hierLoop]
  | cons f rest ih =>
    intro g fs
    simp only [hierLoop]
    cases hm : (move_file_to_folder fs f (targetFolderOf root f)).1 with
    | ok dest =>
      dsimp only
      have h2 := ih (setdefaultAppend g (groupKeyOf f) dest)
        (move_file_to_folder fs f (targetFolderOf root f)).2
      simp only [List.length_cons]
      omega
    | error e =>
      dsimp only
      have h2 := ih g (move_file_to_folder fs f (targetFolderOf root f)).2
      simp only [List.length_cons]
      omega

theorem hierLoop_perm (root : String) :
    ∀ (files : List String) (g : Grouping) (fs : FS),
      ((hierLoop root files g fs).1.map Prod.snd).flatten.Perm
        ((g.map Prod.snd).flatten ++
          (hierLoop root files g fs).2.2.1.map Prod.snd) := by
  intro files
  induction files with
  | nil =>
    intro g fs
    simp [hierLoop]
  | cons f rest ih =>
    intro g fs
    simp only [hierLoop]
    cases hm : (move_file_to_folder fs f (targetFolderOf root f)).1 with
    | ok dest =>
      dsimp only
      have h1 := ih (setdefaultAppend g (groupKeyOf f) dest)
        (move_file_to_folder fs f (targetFolderOf root f)).2
      have h2 := flatten_setdefaultAppend_perm g (groupKeyOf f) dest
      refine h1.trans ?_
      refine (h2.append_right ((hierLoop root rest
        (setdefaultAppend g (groupKeyOf f) dest)
        (move_file_to_folder fs f (targetFolderOf root f)).2).2.2.1.map
          Prod.snd)).trans ?_
      have h4 : (((g.map Prod.snd).flatten ++ [dest]) ++
            ((hierLoop root rest (setdefaultAppend g (groupKeyOf f) dest)
              (move_file_to_folder fs f (targetFolderOf root f)).2).2.2.1.map
                Prod.snd))
          = (g.map Prod.snd).flatten ++
              (dest :: ((hierLoop root rest
                (setdefaultAppend g (groupKeyOf f) dest)
                (move_file_to_folder fs f (targetFolderOf root f)).2).2.2.1.map
                  Prod.snd)) := by
        simp
      rw [h4]
      simp only [List.map_cons]
      exact List.Perm.refl _
    | error e =>
      dsimp only
      exact ih g (move_file_to_folder fs f (targetFolderOf root f)).2

theorem hierLoop_keeps (root : String) :
    ∀ (files : List String) (g : Grouping) (fs : FS) (x : String),
      x ∈ fs.entries → x ∉ files →
      x ∈ (hierLoop root files g fs).2.1.entries ∧
        ∀ p ∈ (hierLoop root files g fs).2.2.1, Prod.snd p ≠ x := by
  intro files
  induction files with
  | nil =>
    intro g fs x hx _
    simp only [hierLoop]
    exact ⟨hx, by simp⟩
  | cons f rest ih =>
    intro g fs x hx hnx
    have hxf : x ≠ f := fun h => hnx (h ▸ List.mem_cons_self f rest)
    have hkeep := mftf_keeps (targetFolderOf root f) hx hxf
    have hnxr : x ∉ rest := fun h => hnx (List.mem_cons_of_mem _ h)
    simp only [hierLoop]
    cases hm : (move_file_to_folder fs f (targetFolderOf root f)).1 with
    | ok dest =>
      dsimp only
      have hrest := ih (setdefaultAppend g (groupKeyOf f) dest)
        (move_file_to_folder fs f (targetFolderOf root f)).2 x hkeep.1 hnxr
      refine ⟨hrest.1, ?_⟩
      intro p hp
      rcases List.mem_cons.mp hp with rfl | hp2
      · exact hkeep.2 dest hm
      · exact hrest.2 p hp2
    | error e =>
      dsimp only
      exact ih g (move_file_to_folder fs f (targetFolderOf root f)).2 x
        hkeep.1 hnxr

theorem hierLoop_grouping_mono (root : String) :
    ∀ (files : List String) (g : Grouping) (fs : FS) (k d : String),
      d ∈ (g.lookup k).getD [] →
      d ∈ ((hierLoop root files g fs).1.lookup k).getD [] := by
  intro files
  induction files with
  | nil =>
    intro g fs k d h
    simpa [hierLoop] using h
  | cons f rest ih =>
    intro g fs k d h
    simp only [hierLoop]
    cases hm : (move_file_to_folder fs f (targetFolderOf root f)).1 with
    | ok dest =>
      dsimp only
      exact ih _ _ _ _ (mem_lookup_setdefaultAppend _ _ h)
    | error e =>
      dsimp only
      exact ih _ _ _ _ h

theorem hierLoop_succs_spec (root : String) :
    ∀ (files : List String) (g : Grouping) (fs : FS) (f d : String),
      (f, d) ∈ (hierLoop root files g fs).2.2.1 →
      f ∈ files ∧ (∃ n, d = pathJoin (targetFolderOf root f) n) ∧
        d ∈ ((hierLoop root files g fs).1.lookup (groupKeyOf f)).getD [] := by
  intro files
  induction files with
  | nil =>
    intro g fs f d h
    simp [hierLoop] at h
  | cons x rest ih =>
    intro g fs f d h
    simp only [hierLoop] at h ⊢
    cases hm : (move_file_to_folder fs x (targetFolderOf root x)).1 with
    | ok dest =>
      rw [hm] at h
      dsimp only at h ⊢
      rcases List.mem_cons.mp h with heq | h2
      · obtain ⟨rfl, rfl⟩ := Prod.mk.inj heq
        have hok := mftf_ok (eq_pair_of_fst hm)
        refine ⟨List.mem_cons_self _ _, hok.2.2.2, ?_⟩
        exact hierLoop_grouping_mono root rest _ _ _ _
          (mem_lookup_setdefaultAppend_new g (groupKeyOf f) d)
      · obtain ⟨hmem, hshape, hgrp⟩ := ih _ _ _ _ h2
        exact ⟨List.mem_cons_of_mem _ hmem, hshape, hgrp⟩
    | error e =>
      rw [hm] at h
      dsimp only at h ⊢
      obtain ⟨hmem, hshape, hgrp⟩ := ih _ _ _ _ h
      exact ⟨List.mem_cons_of_mem _ hmem, hshape, hgrp⟩

theorem hierLoop_tracked (root : String) :
    ∀ (files : List String) (g : Grouping) (fs : FS),
      files.Nodup → (∀ f0 ∈ files, f0 ∈ fs.entries) →
      ∀ f ∈ files,
        (∃ d, (f, d) ∈ (hierLoop root files g fs).2.2.1) ∨
        (f ∈ (hierLoop root files g fs).2.2.2 ∧
          f ∈ (hierLoop root files g fs).2.1.entries ∧
          ∀ p ∈ (hierLoop root files g fs).2.2.1, Prod.snd p ≠ f) := by
  intro files
  induction files with
  | nil =>
    intro g fs _ _ f hf
    simp at hf
  | cons x rest ih =>
    intro g fs hnd hmem f hf
    have hndr : rest.Nodup := (List.nodup_cons.mp hnd).2
    have hxnr : x ∉ rest := (List.nodup_cons.mp hnd).1
    simp only [hierLoop]
    cases hm : (move_file_to_folder fs x (targetFolderOf root x)).1 with
    | ok dest =>
      dsimp only
      have hok := mftf_ok (eq_pair_of_fst hm)
      have hmemr : ∀ f0 ∈ rest,
          f0 ∈ (move_file_to_folder fs x (targetFolderOf root x)).2.entries := by
        intro r hr
        have hrx : r ≠ x := fun h => hxnr (h ▸ hr)
        have hr1 : r ∈ (ensuredTarget fs (targetFolderOf root x)).entries :=
          subset_ensuredTarget (hmem r (List.mem_cons_of_mem _ hr))
        rw [hok.2.2.1]
        exact List.mem_cons_of_mem _ ((List.mem_erase_of_ne hrx).mpr hr1)
      rcases List.mem_cons.mp hf with rfl | hfr
      · exact Or.inl ⟨dest, List.mem_cons_self _ _⟩
      · rcases ih _ _ hndr hmemr f hfr with ⟨d, hd⟩ | ⟨he, hfs, hsucc⟩
        · exact Or.inl ⟨d, List.mem_cons_of_mem _ hd⟩
        · refine Or.inr ⟨he, hfs, ?_⟩
          intro p hp
          rcases List.mem_cons.mp hp with rfl | hp2
          · intro hc
            have hfE : f ∈ (ensuredTarget fs (targetFolderOf root x)).entries :=
              subset_ensuredTarget (hmem f (List.mem_cons_of_mem _ hfr))
            have hdf : dest = f := hc
            exact hok.1 (hdf ▸ hfE)
          · exact hsucc p hp2
    | error e =>
      dsimp only
      have herr := mftf_err (eq_pair_of_fst hm)
      have hsub : ∀ f0 ∈ x :: rest,
          f0 ∈ (move_file_to_folder fs x (targetFolderOf root x)).2.entries := by
        intro r hr
        rw [herr]
        exact subset_ensuredTarget (hmem r hr)
      rcases List.mem_cons.mp hf with heq | hfr
      · subst heq
        have hkeep := hierLoop_keeps root rest g
          (move_file_to_folder fs f (targetFolderOf root f)).2 f
          (hsub f (List.mem_cons_self _ _)) hxnr
        exact Or.inr ⟨List.mem_cons_self _ _, hkeep.1, hkeep.2⟩
      · rcases ih _ _ hndr (fun r hr => hsub r (List.mem_cons_of_mem _ hr))
          f hfr with ⟨d, hd⟩ | ⟨he, hfs, hsucc⟩
        · exact Or.inl ⟨d, hd⟩
        · exact Or.inr ⟨List.mem_cons_of_mem _ he, hfs, hsucc⟩

/-! ## Action-application loop -/

theorem applyLoop_calls (action : FileAction) :
    ∀ (files : List String) (fs : FS) (idx : Nat),
      (applyLoop action files fs idx).2.1 = List.enumFrom idx files := by
  intro files
  induction files with
  | nil =>
    intro fs idx
    simp [applyLoop, List.enumFrom]
  | cons f rest ih =>
    intro fs idx
    simp only [applyLoop]
    cases hm : action f idx fs with
    | ok fs1 =>
      dsimp only
      rw [ih]
      simp [List.enumFrom]
    | error e =>
      dsimp only
      rw [ih]
      simp [List.enumFrom]

theorem applyLoop_counts (action : FileAction) :
    ∀ (files : List String) (fs : FS) (idx : Nat),
      (applyLoop action files fs idx).2.2.1.length +
        (applyLoop action files fs idx).2.2.2.length = files.length := by
  intro files
  induction files with
  | nil =>
    intro fs idx
    simp [applyLoop]
  | cons f rest ih =>
    intro fs idx
    simp only [applyLoop]
    cases hm : action f idx fs with
    | ok fs1 =>
      dsimp only
      have h2 := ih fs1 (idx + 1)
      simp only [List.length_cons]
      omega
    | error e =>
      dsimp only
      have h2 := ih fs (idx + 1)
      simp only [List.length_cons]
      omega

/-! ## String facts for the collision counter -/

theorem append_head_ne {b e : String} {c : Char}
    (hb : b.data.head? ≠ some c) (he : e.data.head? ≠ some c) :
    (b ++ e).data.head? ≠ some c := by
  rw [str_data_append]
  cases hd : b.data with
  | nil => simpa using he
  | cons a as =>
    rw [hd] at hb
    simpa using hb

theorem pathJoin_right_inj {t x y : String}
    (hx : x.data.head? ≠ some '/') (hy : y.data.head? ≠ some '/')
    (h : pathJoin t x = pathJoin t y) : x = y := by
  unfold pathJoin at h
  rw [if_neg hx, if_neg hy] at h
  by_cases ht : t = ""
  · rwa [if_pos ht, if_pos ht] at h
  · rw [if_neg ht, if_neg ht] at h
    by_cases hs : t.data.getLast? = some '/'
    · rw [if_pos hs, if_pos hs] at h
      apply str_ext
      have h2 := congrArg String.data h
      rw [str_data_append, str_data_append] at h2
      exact List.append_cancel_left h2
    · rw [if_neg hs, if_neg hs] at h
      apply str_ext
      have h2 := congrArg String.data h
      rw [str_data_append, str_data_append, str_data_append,
        str_data_append, List.append_assoc, List.append_assoc] at h2
      exact List.append_cancel_left (List.append_cancel_left h2)

theorem stem_counter_ne_plain (b e : String) (k : Nat) (h1 : Nat.repr k ≠ "") :
    b ++ e ≠ b ++ "_" ++ Nat.repr k ++ e := by
  intro h
  have h2 := congrArg String.length h
  rw [String.length_append, String.length_append, String.length_append,
    String.length_append] at h2
  have h3 : (Nat.repr k).length ≠ 0 := fun hz => h1 (by
    apply str_ext
    simpa using List.length_eq_zero.mp hz)
  have h4 : ("_" : String).length = 1 := rfl
  omega

theorem stem_counter_one_ne_two (b e : String) :
    b ++ "_" ++ Nat.repr 1 ++ e ≠ b ++ "_" ++ Nat.repr 2 ++ e := by
  intro h
  have h1 : Nat.repr 1 = "1" := rfl
  have h2 : Nat.repr 2 = "2" := rfl
  rw [h1, h2] at h
  have h3 := congrArg String.data h
  rw [str_data_append, str_data_append, str_data_append, str_data_append,
    str_data_append, str_data_append, List.append_assoc, List.append_assoc,
    List.append_assoc, List.append_assoc] at h3
  have h4 := List.append_cancel_left h3
  have h5 := List.append_cancel_left h4
  simp at h5

/-! ## Concrete runs of the mover for the collision scenario -/

theorem basename_eq_of_splitext {p b e : String}
    (hsp : splitext (basename p) = (b, e)) : basename p = b ++ e := by
  have h := splitext_append (basename p)
  rw [hsp] at h
  exact h.symm

theorem mftf_run_free (fs : FS) (p tf b e : String)
    (hsp : splitext (basename p) = (b, e))
    (htf : fs.existsPath tf = true)
    (hfree : fs.existsPath (pathJoin tf (b ++ e)) = false)
    (hp : p ∈ fs.entries)
    (hok : fs.failMove p (pathJoin tf (b ++ e)) = false) :
    move_file_to_folder fs p tf =
      (.ok (pathJoin tf (b ++ e)),
        { fs with entries := pathJoin tf (b ++ e) :: fs.entries.erase p }) := by
  have hbn := basename_eq_of_splitext hsp
  have hsp2 : splitext (b ++ e) = (b, e) := hbn ▸ hsp
  simp only [move_file_to_folder, ensuredTarget_of_exists htf, hbn, hsp2]
  rw [findDest_free hfree]
  simp [hok, (FS.existsPath_iff fs p).mpr hp]

theorem mftf_run_one (fs : FS) (p tf b e : String)
    (hsp : splitext (basename p) = (b, e))
    (htf : fs.existsPath tf = true)
    (hd0 : fs.existsPath (pathJoin tf (b ++ e)) = true)
    (hd1 : fs.existsPath (pathJoin tf (b ++ "_" ++ Nat.repr 1 ++ e)) = false)
    (hp : p ∈ fs.entries)
    (hok : fs.failMove p (pathJoin tf (b ++ "_" ++ Nat.repr 1 ++ e)) = false) :
    move_file_to_folder fs p tf =
      (.ok (pathJoin tf (b ++ "_" ++ Nat.repr 1 ++ e)),
        { fs with entries :=
            pathJoin tf (b ++ "_" ++ Nat.repr 1 ++ e) :: fs.entries.erase p }) := by
  have hbn := basename_eq_of_splitext hsp
  have hsp2 : splitext (b ++ e) = (b, e) := hbn ▸ hsp
  obtain ⟨m, hm⟩ : ∃ m, fs.entries.length = m + 1 := by
    have hne : fs.entries ≠ [] :=
      List.ne_nil_of_mem ((FS.existsPath_iff _ _).mp hd0)
    refine ⟨fs.entries.length - 1, ?_⟩
    cases hl : fs.entries.length with
    | zero => exact absurd (List.length_eq_zero.mp hl) hne
    | succ n => omega
  simp only [move_file_to_folder, ensuredTarget_of_exists htf, hbn, hsp2]
  rw [hm, findDest_step hd0, findDest_free hd1]
  simp [hok, (FS.existsPath_iff fs p).mpr hp]

theorem mftf_run_two (fs : FS) (p tf b e : String)
    (hsp : splitext (basename p) = (b, e))
    (htf : fs.existsPath tf = true)
    (hlen : 2 ≤ fs.entries.length)
    (hd0 : fs.existsPath (pathJoin tf (b ++ e)) = true)
    (hd1 : fs.existsPath (pathJoin tf (b ++ "_" ++ Nat.repr 1 ++ e)) = true)
    (hd2 : fs.existsPath (pathJoin tf (b ++ "_" ++ Nat.repr 2 ++ e)) = false)
    (hp : p ∈ fs.entries)
    (hok : fs.failMove p (pathJoin tf (b ++ "_" ++ Nat.repr 2 ++ e)) = false) :
    move_file_to_folder fs p tf =
      (.ok (pathJoin tf (b ++ "_" ++ Nat.repr 2 ++ e)),
        { fs with entries :=
            pathJoin tf (b ++ "_" ++ Nat.repr 2 ++ e) :: fs.entries.erase p }) := by
  have hbn := basename_eq_of_splitext hsp
  have hsp2 : splitext (b ++ e) = (b, e) := hbn ▸ hsp
  obtain ⟨m, hm⟩ : ∃ m, fs.entries.length = m + 2 :=
    ⟨fs.entries.length - 2, by omega⟩
  simp only [move_file_to_folder, ensuredTarget_of_exists htf, hbn, hsp2]
  rw [hm, findDest_step hd0, findDest_step hd1, findDest_free hd2]
  simp [hok, (FS.existsPath_iff fs p).mpr hp]

/-! ## Claim theorems -/

/-- C1 (counterexample): the claim fails on the code in two ways.  The
extension ".ts" belongs to the miscellaneous table, yet `get_media_type`
classifies "clip.ts" as "video" (the video table also contains ".ts" and
is checked first), so membership of an extension in a category table
does not force that category.  Moreover "a.mp3" and ".mp3" have the same
text after their last dot, yet classify differently ("audio" versus
"other"), so the classifier is not a function of that substring: Python
`splitext` treats the hidden file ".mp3" as having no extension. -/
theorem C1_counterexample :
    ((".ts" ∈ MISCELLANEOUS_EXTENSIONS) ∧ get_media_type "clip.ts" ≠ "misc") ∧
    (specExtensionText "a.mp3" = specExtensionText ".mp3" ∧
      get_media_type "a.mp3" ≠ get_media_type ".mp3") := by
  refine ⟨⟨by decide, by decide⟩, by decide, by decide⟩

/-- C1 (amended): `get_media_type` is a pure function of the lower-cased
`splitext` extension of the path (the suffix starting at the last dot of
the final path component, where a component whose characters before that
dot are all dots has no extension and yields the empty string), looked
up in the image, video, audio and miscellaneous tables in that fixed
order with the first match winning; for every extension in a category's
table that is not claimed by an earlier table, the result is that
category regardless of letter case. -/
theorem C1_classifier (p : String) :
    get_media_type p = mediaTypeOfExt (pyLower (splitext p).2) ∧
    (pyLower (splitext p).2 ∈ IMAGE_EXTENSIONS → get_media_type p = "image") ∧
    (pyLower (splitext p).2 ∉ IMAGE_EXTENSIONS →
      pyLower (splitext p).2 ∈ VIDEO_EXTENSIONS → get_media_type p = "video") ∧
    (pyLower (splitext p).2 ∉ IMAGE_EXTENSIONS →
      pyLower (splitext p).2 ∉ VIDEO_EXTENSIONS →
      pyLower (splitext p).2 ∈ AUDIO_EXTENSIONS → get_media_type p = "audio") ∧
    (pyLower (splitext p).2 ∉ IMAGE_EXTENSIONS →
      pyLower (splitext p).2 ∉ VIDEO_EXTENSIONS →
      pyLower (splitext p).2 ∉ AUDIO_EXTENSIONS →
      pyLower (splitext p).2 ∈ MISCELLANEOUS_EXTENSIONS →
      get_media_type p = "misc") ∧
    (pyLower (splitext p).2 ∉ IMAGE_EXTENSIONS →
      pyLower (splitext p).2 ∉ VIDEO_EXTENSIONS →
      pyLower (splitext p).2 ∉ AUDIO_EXTENSIONS →
      pyLower (splitext p).2 ∉ MISCELLANEOUS_EXTENSIONS →
      get_media_type p = "other") := by
  refine ⟨rfl, ?_, ?_, ?_, ?_, ?_⟩
  · intro h1
    simp [get_media_type, h1]
  · intro h1 h2
    simp [get_media_type, h1, h2]
  · intro h1 h2 h3
    simp [get_media_type, h1, h2, h3]
  · intro h1 h2 h3 h4
    simp [get_media_type, h1, h2, h3, h4]
  · intro h1 h2 h3 h4
    simp [get_media_type, h1, h2, h3, h4]

/-- C1 (witness): the amended classifier theorem applied to the
upper-case path "photo.JPG", whose lowered extension is in the image
table, yields category "image". -/
theorem C1_witness :
    pyLower (splitext "photo.JPG").2 ∈ IMAGE_EXTENSIONS ∧
      get_media_type "photo.JPG" = "image" :=
  ⟨by decide, (C1_classifier "photo.JPG").2.1 (by decide)⟩

/-- C9 (counterexample): with a container that opens and a frame-property
read that raises, `get_video_resolution` returns the none-value from the
exception handler while the decoder handle opened by the call is still
open — starting from zero open decoders it ends with one, so the probe
does not release on every exit path. -/
theorem C9_counterexample :
    (get_video_resolution ⟨true, true, 320, 240⟩ ⟨0⟩).1 = none ∧
    (get_video_resolution ⟨true, true, 320, 240⟩ ⟨0⟩).2.openDecoders = 1 :=
  ⟨rfl, rfl⟩

/-- C9 (amended): the probe releases the decoder only on the success
path.  When the container cannot be opened no decoder is opened and the
state is unchanged; on success the opened decoder is released before
returning; but when reading the dimensions raises after a successful
open, the handler returns the none-value without a release and the
decoder handle opened by the call remains open. -/
theorem C9_probe_release (cv : CvOracle) (st : CvState) :
    (cv.opensOk = false → get_video_resolution cv st = (none, st)) ∧
    (cv.opensOk = true → cv.getRaises = false →
      (get_video_resolution cv st).1 = some (cv.frameWidth, cv.frameHeight) ∧
      (get_video_resolution cv st).2.openDecoders = st.openDecoders) ∧
    (cv.opensOk = true → cv.getRaises = true →
      (get_video_resolution cv st).1 = none ∧
      (get_video_resolution cv st).2.openDecoders = st.openDecoders + 1) := by
  refine ⟨?_, ?_, ?_⟩
  · intro h
    simp [get_video_resolution, h]
  · intro h1 h2
    simp [get_video_resolution, h1, h2]
  · intro h1 h2
    simp [get_video_resolution, h1, h2]

/-- C9 (witness): the amended probe theorem applied to an oracle whose
container does not open, starting from five open decoders: the probe
returns the none-value and the state is unchanged. -/
theorem C9_witness :
    (⟨false, false, 0, 0⟩ : CvOracle).opensOk = false ∧
    get_video_resolution ⟨false, false, 0, 0⟩ ⟨5⟩ = (none, ⟨5⟩) :=
  ⟨rfl, (C9_probe_release ⟨false, false, 0, 0⟩ ⟨5⟩).1 rfl⟩

/-- C10: for every group key, every action and every filesystem state,
`apply_action` leaves the organizer record — root folder, file list and
current grouping with its stored paths — exactly as it was. -/
theorem C10_apply_action_frame (org : Organizer) (fs : FS) (k : String)
    (a : FileAction) : (apply_action org fs k a).org = org := by
  unfold apply_action
  cases h : org.sorted_files.lookup k <;> rfl

/-- C7: `apply_action` on a group key absent from the current grouping
returns the untouched organizer and filesystem, performs no action
invocation, and reports exactly the one group-not-found error; on a
present key it invokes the action on the stored file list in order with
1-based sequential indices. -/
theorem C7_apply_action (org : Organizer) (fs : FS) (k : String)
    (a : FileAction) :
    (org.sorted_files.lookup k = none →
      apply_action org fs k a =
        ⟨org, fs, [], [], ["Group " ++ k ++ " not found."]⟩) ∧
    (∀ l, org.sorted_files.lookup k = some l →
      (apply_action org fs k a).calls = List.enumFrom 1 l) := by
  constructor
  · intro h
    simp only [apply_action, h]
  · intro l h
    simp only [apply_action, h]
    exact applyLoop_calls a l fs 1

/-- C6: no per-file failure escapes the two batch operations: the
hierarchy move produces exactly one success or one reported failure per
file of the snapshot, and action application invokes the action once per
file of the group with every outcome accounted for, whatever the action
and the failure oracle do. -/
theorem C6_per_file_isolation :
    (∀ (org : Organizer) (fs : FS),
      (move_files_to_hierarchy org fs).succs.length +
        (move_files_to_hierarchy org fs).errs.length = org.files.length) ∧
    (∀ (org : Organizer) (fs : FS) (k : String) (a : FileAction)
        (l : List String), org.sorted_files.lookup k = some l →
      (apply_action org fs k a).calls = List.enumFrom 1 l ∧
      (apply_action org fs k a).oks.length +
        (apply_action org fs k a).errs.length = l.length) := by
  constructor
  · intro org fs
    exact hierLoop_counts org.root_folder org.files [] fs
  · intro org fs k a l hl
    constructor
    · simp only [apply_action, hl]
      exact applyLoop_calls a l fs 1
    · simp only [apply_action, hl]
      exact applyLoop_counts a l fs 1

def fsEmpty : FS :=
  { entries := [], failMove := fun _ _ => false, renameOverwrites := true }

def orgC6 : Organizer :=
  { root_folder := "r", files := [], sorted_files := [("g", ["x"])] }

def actC6 : FileAction := fun _ _ fs => .ok fs

/-- C6 (witness): the isolation theorem applied to a one-file group with
a trivially succeeding action. -/
theorem C6_witness :
    orgC6.sorted_files.lookup "g" = some ["x"] ∧
    (apply_action orgC6 fsEmpty "g" actC6).calls = List.enumFrom 1 ["x"] :=
  ⟨by decide, (C6_per_file_isolation.2 orgC6 fsEmpty "g" actC6 ["x"] (by decide)).1⟩

/-- C7 (witness): the apply-action theorem applied to a key that is not
in the grouping: the full result record is the untouched state with the
single error report. -/
theorem C7_witness :
    orgC6.sorted_files.lookup "nope" = none ∧
    apply_action orgC6 fsEmpty "nope" actC6 =
      ⟨orgC6, fsEmpty, [], [], ["Group " ++ "nope" ++ " not found."]⟩ :=
  ⟨by decide, (C7_apply_action orgC6 fsEmpty "nope" actC6).1 (by decide)⟩

/-- C2: every file moved successfully by the hierarchy move was in the
snapshot, its destination lies inside the two-level target folder
`root/mediafolder/extfolder` computed for it, and it is recorded in the
returned grouping under the path-joined key `mediafolder/extfolder`;
the media folder is the fixed name for the file's category, with
category "other" mapping to folder name "others", and the extension
folder is the cleaned extension without its leading dot, or
"no_extension" when the extension is empty. -/
theorem C2_hierarchy_destinations (org : Organizer) (fs : FS) (f d : String)
    (h : (f, d) ∈ (move_files_to_hierarchy org fs).succs) :
    f ∈ org.files ∧
    (∃ n, d = pathJoin (targetFolderOf org.root_folder f) n) ∧
    targetFolderOf org.root_folder f =
      pathJoin (pathJoin org.root_folder (mediaFolderName f)) (extFolderName f) ∧
    d ∈ ((move_files_to_hierarchy org fs).grouping.lookup (groupKeyOf f)).getD [] ∧
    groupKeyOf f = pathJoin (mediaFolderName f) (extFolderName f) ∧
    (get_media_type f = "image" → mediaFolderName f = "images") ∧
    (get_media_type f = "video" → mediaFolderName f = "videos") ∧
    (get_media_type f = "audio" → mediaFolderName f = "audio") ∧
    (get_media_type f = "misc" → mediaFolderName f = "misc") ∧
    (get_media_type f = "other" → mediaFolderName f = "others") ∧
    (pyLower (splitext f).2 = "" → extFolderName f = "no_extension") ∧
    (pyLower (splitext f).2 ≠ "" → extFolderName f =
      clean_folder_name ⟨(pyLower (splitext f).2).data.dropWhile
        (fun c => c == '.')⟩) := by
  have hs := hierLoop_succs_spec org.root_folder org.files [] fs f d h
  refine ⟨hs.1, hs.2.1, rfl, hs.2.2, rfl, ?_, ?_, ?_, ?_, ?_, ?_, ?_⟩
  · intro hmt
    simp only [mediaFolderName]
    rw [hmt]
    decide
  · intro hmt
    simp only [mediaFolderName]
    rw [hmt]
    decide
  · intro hmt
    simp only [mediaFolderName]
    rw [hmt]
    decide
  · intro hmt
    simp only [mediaFolderName]
    rw [hmt]
    decide
  · intro hmt
    simp only [mediaFolderName]
    rw [hmt]
    decide
  · intro hext
    simp [extFolderName, hext]
  · intro hext
    simp only [extFolderName]
    rw [if_pos hext]

def orgC2 : Organizer :=
  { root_folder := "r", files := ["photo.jpg"], sorted_files := [] }

def fsC2 : FS :=
  { entries := ["photo.jpg"], failMove := fun _ _ => false,
    renameOverwrites := true }

/-- C2 (witness): moving the single file "photo.jpg" under root "r"
succeeds with destination "r/images/jpg/photo.jpg", and the destination
theorem applies to that success. -/
theorem C2_witness :
    ("photo.jpg", "r/images/jpg/photo.jpg") ∈
        (move_files_to_hierarchy orgC2 fsC2).succs ∧
    "r/images/jpg/photo.jpg" ∈
      ((move_files_to_hierarchy orgC2 fsC2).grouping.lookup
        (groupKeyOf "photo.jpg")).getD [] :=
  ⟨by decide,
    (C2_hierarchy_destinations orgC2 fsC2 "photo.jpg" "r/images/jpg/photo.jpg"
      (by decide)).2.2.2.1⟩

/-- C4: the collision-safe mover is atomic in the model where
`shutil.move` is an atomic transfer: on success it returns a destination
that now exists, the file is gone from its original path, and apart from
the returned destination and the (intended) target folder creation the
set of existing paths is unchanged; on any failure the original file is
still at its original path and nothing beyond the target-folder creation
has changed — no partial state. -/
theorem C4_move_atomicity (fs : FS) (fp tf : String)
    (hnd : fs.entries.Nodup) :
    (∀ d fs2, move_file_to_folder fs fp tf = (.ok d, fs2) →
      d ∈ fs2.entries ∧ fp ∉ fs2.entries ∧
        (∀ q ∈ fs2.entries, q = d ∨ q = tf ∨ q ∈ fs.entries) ∧
        (∀ q ∈ fs.entries, q ≠ fp → q ∈ fs2.entries)) ∧
    (∀ e fs2, move_file_to_folder fs fp tf = (.error e, fs2) →
      (fp ∈ fs.entries → fp ∈ fs2.entries) ∧
      (∀ q ∈ fs2.entries, q = tf ∨ q ∈ fs.entries) ∧
      (∀ q ∈ fs.entries, q ∈ fs2.entries)) := by
  constructor
  · intro d fs2 h
    obtain ⟨hfree, hsrc, hrec, _⟩ := mftf_ok h
    have hET := ensuredTarget_nodup tf hnd
    subst hrec
    refine ⟨List.mem_cons_self _ _, ?_, ?_, ?_⟩
    · intro hmem
      rcases List.mem_cons.mp hmem with h1 | h2
      · exact hfree (h1 ▸ hsrc)
      · exact hET.not_mem_erase h2
    · intro q hq
      rcases List.mem_cons.mp hq with rfl | h2
      · exact Or.inl rfl
      · rcases mem_ensuredTarget.mp (List.erase_subset _ _ h2) with hq1 | ⟨_, rfl⟩
        · exact Or.inr (Or.inr hq1)
        · exact Or.inr (Or.inl rfl)
    · intro q hq hqfp
      exact List.mem_cons_of_mem _
        ((List.mem_erase_of_ne hqfp).mpr (subset_ensuredTarget hq))
  · intro e fs2 h
    obtain rfl := mftf_err h
    refine ⟨fun h1 => subset_ensuredTarget h1, ?_,
      fun q hq => subset_ensuredTarget hq⟩
    intro q hq
    rcases mem_ensuredTarget.mp hq with h1 | ⟨_, rfl⟩
    · exact Or.inr h1
    · exact Or.inl rfl

def fsC4 : FS :=
  { entries := ["s/a.txt"], failMove := fun _ _ => false,
    renameOverwrites := true }

/-- C4 (witness): moving "s/a.txt" into the fresh folder "t" succeeds
with destination "t/a.txt" and the source path no longer exists. -/
theorem C4_witness :
    fsC4.entries.Nodup ∧
      "s/a.txt" ∉ (move_file_to_folder fsC4 "s/a.txt" "t").2.entries :=
  ⟨by decide, by
    have hm : (move_file_to_folder fsC4 "s/a.txt" "t").1 = .ok "t/a.txt" := rfl
    exact ((C4_move_atomicity fsC4 "s/a.txt" "t" (by decide)).1 "t/a.txt" _
      (eq_pair_of_fst hm)).2.1⟩

/-- C5: after the hierarchy move the organizer's file list is exactly
the flattened grouping values, a permutation of the successful new
destinations; every file of the snapshot either succeeded — its
destination is tracked — or had its failure reported, still exists at
its original path in the final filesystem, and its path appears neither
in the updated file list nor in the grouping; the root folder and the
previous grouping field are untouched. -/
theorem C5_tracked_files (org : Organizer) (fs : FS)
    (hnd : org.files.Nodup) (hmem : ∀ f ∈ org.files, f ∈ fs.entries) :
    (move_files_to_hierarchy org fs).org.files =
      ((move_files_to_hierarchy org fs).grouping.map Prod.snd).flatten ∧
    (move_files_to_hierarchy org fs).org.files.Perm
      ((move_files_to_hierarchy org fs).succs.map Prod.snd) ∧
    (move_files_to_hierarchy org fs).org.root_folder = org.root_folder ∧
    (move_files_to_hierarchy org fs).org.sorted_files = org.sorted_files ∧
    ∀ f ∈ org.files,
      (∃ d, (f, d) ∈ (move_files_to_hierarchy org fs).succs ∧
        d ∈ (move_files_to_hierarchy org fs).org.files) ∨
      (f ∈ (move_files_to_hierarchy org fs).errs ∧
        f ∈ (move_files_to_hierarchy org fs).fs.entries ∧
        f ∉ (move_files_to_hierarchy org fs).org.files) := by
  have hperm : (move_files_to_hierarchy org fs).org.files.Perm
      ((move_files_to_hierarchy org fs).succs.map Prod.snd) := by
    show ((hierLoop org.root_folder org.files [] fs).1.map Prod.snd).flatten.Perm
      ((hierLoop org.root_folder org.files [] fs).2.2.1.map Prod.snd)
    have h := hierLoop_perm org.root_folder org.files [] fs
    simpa using h
  refine ⟨rfl, hperm, rfl, rfl, ?_⟩
  intro f hf
  rcases hierLoop_tracked org.root_folder org.files [] fs hnd hmem f hf with
    ⟨d, hd⟩ | ⟨he, hfse, hsucc⟩
  · refine Or.inl ⟨d, hd, ?_⟩
    rw [hperm.mem_iff]
    exact List.mem_map_of_mem Prod.snd hd
  · refine Or.inr ⟨he, hfse, ?_⟩
    intro hcontra
    rw [hperm.mem_iff] at hcontra
    obtain ⟨p, hp, hpd⟩ := List.mem_map.mp hcontra
    exact hsucc p hp hpd

def orgC5 : Organizer :=
  { root_folder := "r", files := ["a.txt", "bad.txt"], sorted_files := [] }

def fsC5 : FS :=
  { entries := ["a.txt", "bad.txt"],
    failMove := fun s _ => s == "bad.txt", renameOverwrites := true }

/-- C5 (witness): with a failure oracle that makes the move of
"bad.txt" fail, the tracked-files theorem applies: the updated file list
is a permutation of the successful destinations. -/
theorem C5_witness :
    orgC5.files.Nodup ∧
    (move_files_to_hierarchy orgC5 fsC5).org.files.Perm
      ((move_files_to_hierarchy orgC5 fsC5).succs.map Prod.snd) :=
  ⟨by decide, (C5_tracked_files orgC5 fsC5 (by decide) (by decide)).2.1⟩

/-! ## Rename actions and the collision counter -/

def exceptIsOk : Except String FS → Bool
  | .ok _ => true
  | .error _ => false

def exceptEntries : Except String FS → List String
  | .ok fs => fs.entries
  | .error _ => []

theorem osRename_spec (fs : FS) (src dst : String) (hsrc : src ∈ fs.entries) :
    (fs.renameOverwrites = false → dst ∈ fs.entries →
      exceptIsOk (fs.osRename src dst) = false) ∧
    (fs.renameOverwrites = true →
      exceptIsOk (fs.osRename src dst) = true) := by
  constructor
  · intro hov hdst
    simp [FS.osRename, hsrc, hdst, hov, exceptIsOk]
  · intro hov
    by_cases hdst : dst ∈ fs.entries
    · simp [FS.osRename, hsrc, hdst, hov, exceptIsOk]
    · simp [FS.osRename, hsrc, hdst, exceptIsOk]

def fsC8posix : FS :=
  { entries := ["d/a.txt", "d/done_a.txt"],
    failMove := fun _ _ => false, renameOverwrites := true }

/-- C8 (counterexample): on a POSIX host, where `os.rename` silently
replaces an existing destination, the label action applied to "d/a.txt"
with label "done" succeeds even though "d/done_a.txt" already exists,
and afterwards only the overwritten "d/done_a.txt" remains — the action
neither fails nor preserves the existing file, contradicting the
claim that a collision makes the action fail. -/
theorem C8_counterexample :
    ("d/done_a.txt" ∈ fsC8posix.entries) ∧
    exceptIsOk (create_change_label_action "done" "d/a.txt" 1 fsC8posix) = true ∧
    exceptEntries (create_change_label_action "done" "d/a.txt" 1 fsC8posix) =
      ["d/done_a.txt"] :=
  ⟨by decide, by decide, by decide⟩

/-- C8 (amended): the rename and label actions perform no collision
pre-check and delegate to `os.rename`; on hosts whose rename refuses an
existing target the action fails with the surfaced rename error (which
the per-file isolation layer catches), while on POSIX hosts the rename
succeeds and silently replaces the existing destination file. -/
theorem C8_rename_collision (fs : FS) (fp label pattern : String) (idx : Nat)
    (hsrc : fp ∈ fs.entries) :
    (fs.renameOverwrites = false →
      (pathJoin (dirname fp) (label ++ "_" ++ basename fp) ∈ fs.entries →
        exceptIsOk (create_change_label_action label fp idx fs) = false) ∧
      (pathJoin (dirname fp)
          (((pattern.replace "{basename}" (splitext (basename fp)).1).replace
            "{index}" (Nat.repr idx)) ++ (splitext fp).2) ∈ fs.entries →
        exceptIsOk (create_rename_action pattern fp idx fs) = false)) ∧
    (fs.renameOverwrites = true →
      exceptIsOk (create_change_label_action label fp idx fs) = true ∧
      exceptIsOk (create_rename_action pattern fp idx fs) = true) := by
  constructor
  · intro hov
    constructor
    · intro hdst
      exact (osRename_spec fs fp _ hsrc).1 hov hdst
    · intro hdst
      exact (osRename_spec fs fp _ hsrc).1 hov hdst
  · intro hov
    exact ⟨(osRename_spec fs fp _ hsrc).2 hov, (osRename_spec fs fp _ hsrc).2 hov⟩

def fsC8win : FS :=
  { entries := ["d/a.txt", "d/done_a.txt"],
    failMove := fun _ _ => false, renameOverwrites := false }

/-- C8 (witness): on a host whose rename refuses existing targets, the
label action on "d/a.txt" with label "done" fails because "d/done_a.txt"
already exists. -/
theorem C8_witness :
    ("d/a.txt" : String) ∈ fsC8win.entries ∧
    exceptIsOk (create_change_label_action "done" "d/a.txt" 1 fsC8win) = false :=
  ⟨by decide,
    ((C8_rename_collision fsC8win "d/a.txt" "done" "x" 1 (by decide)).1 rfl).1
      (by decide)⟩

/-- C3: moving three distinct files with the same basename (stem `b`,
extension `e`) into the same existing target folder, with the three
candidate names initially free and no external move failure: the first
file keeps its basename, the second lands at the stem with counter 1
appended before the extension, the third at counter 2, and the three
destinations are pairwise distinct. -/
theorem C3_collision_counter (fs : FS) (target p1 p2 p3 b e : String)
    (hs1 : splitext (basename p1) = (b, e))
    (hs2 : splitext (basename p2) = (b, e))
    (hs3 : splitext (basename p3) = (b, e))
    (htf : target ∈ fs.entries)
    (hb : b.data.head? ≠ some '/') (he : e.data.head? ≠ some '/')
    (hd0 : pathJoin target (b ++ e) ∉ fs.entries)
    (hd1 : pathJoin target (b ++ "_" ++ Nat.repr 1 ++ e) ∉ fs.entries)
    (hd2 : pathJoin target (b ++ "_" ++ Nat.repr 2 ++ e) ∉ fs.entries)
    (hp1 : p1 ∈ fs.entries) (hp2 : p2 ∈ fs.entries) (hp3 : p3 ∈ fs.entries)
    (h12 : p1 ≠ p2) (h13 : p1 ≠ p3) (h23 : p2 ≠ p3)
    (ht1 : p1 ≠ target) (ht2 : p2 ≠ target) (_ht3 : p3 ≠ target)
    (hok : ∀ s d, fs.failMove s d = false) :
    ∃ fs1 fs2 fs3 : FS,
      move_file_to_folder fs p1 target =
        (.ok (pathJoin target (basename p1)), fs1) ∧
      move_file_to_folder fs1 p2 target =
        (.ok (pathJoin target (b ++ "_" ++ Nat.repr 1 ++ e)), fs2) ∧
      move_file_to_folder fs2 p3 target =
        (.ok (pathJoin target (b ++ "_" ++ Nat.repr 2 ++ e)), fs3) ∧
      pathJoin target (basename p1) ≠
        pathJoin target (b ++ "_" ++ Nat.repr 1 ++ e) ∧
      pathJoin target (basename p1) ≠
        pathJoin target (b ++ "_" ++ Nat.repr 2 ++ e) ∧
      pathJoin target (b ++ "_" ++ Nat.repr 1 ++ e) ≠
        pathJoin target (b ++ "_" ++ Nat.repr 2 ++ e) := by
  have hbn1 := basename_eq_of_splitext hs1
  have hr1 : Nat.repr 1 = "1" := rfl
  have hr2 : Nat.repr 2 = "2" := rfl
  have hu : ("_" : String).data.head? ≠ some '/' := by decide
  have h1c : ("1" : String).data.head? ≠ some '/' := by decide
  have h2c : ("2" : String).data.head? ≠ some '/' := by decide
  have hh0 : (b ++ e).data.head? ≠ some '/' := append_head_ne hb he
  have hh1 : (b ++ "_" ++ Nat.repr 1 ++ e).data.head? ≠ some '/' := by
    rw [hr1]
    exact append_head_ne (append_head_ne (append_head_ne hb hu) h1c) he
  have hh2 : (b ++ "_" ++ Nat.repr 2 ++ e).data.head? ≠ some '/' := by
    rw [hr2]
    exact append_head_ne (append_head_ne (append_head_ne hb hu) h2c) he
  have hD01 : pathJoin target (b ++ e) ≠
      pathJoin target (b ++ "_" ++ Nat.repr 1 ++ e) :=
    fun h => stem_counter_ne_plain b e 1 (by decide)
      (pathJoin_right_inj hh0 hh1 h)
  have hD02 : pathJoin target (b ++ e) ≠
      pathJoin target (b ++ "_" ++ Nat.repr 2 ++ e) :=
    fun h => stem_counter_ne_plain b e 2 (by decide)
      (pathJoin_right_inj hh0 hh2 h)
  have hD12 : pathJoin target (b ++ "_" ++ Nat.repr 1 ++ e) ≠
      pathJoin target (b ++ "_" ++ Nat.repr 2 ++ e) :=
    fun h => stem_counter_one_ne_two b e (pathJoin_right_inj hh1 hh2 h)
  -- first move: the basename is free
  have heq1 := mftf_run_free fs p1 target b e hs1
    ((FS.existsPath_iff _ _).mpr htf) ((FS.existsPath_eq_false _ _).mpr hd0)
    hp1 (hok _ _)
  -- facts about the filesystem after the first move
  have hT1 : target ∈ (pathJoin target (b ++ e) :: fs.entries.erase p1) :=
    List.mem_cons_of_mem _ ((List.mem_erase_of_ne (Ne.symm ht1)).mpr htf)
  have hD0mem1 : pathJoin target (b ++ e) ∈
      (pathJoin target (b ++ e) :: fs.entries.erase p1) :=
    List.mem_cons_self _ _
  have hD1notmem1 : pathJoin target (b ++ "_" ++ Nat.repr 1 ++ e) ∉
      (pathJoin target (b ++ e) :: fs.entries.erase p1) := by
    intro hmem
    rcases List.mem_cons.mp hmem with h | hmem2
    · exact hD01 h.symm
    · exact hd1 (List.erase_subset _ _ hmem2)
  have hp2mem1 : p2 ∈ (pathJoin target (b ++ e) :: fs.entries.erase p1) :=
    List.mem_cons_of_mem _ ((List.mem_erase_of_ne (Ne.symm h12)).mpr hp2)
  -- second move: one collision, counter 1 is free
  have heq2 := mftf_run_one
    { fs with entries := pathJoin target (b ++ e) :: fs.entries.erase p1 }
    p2 target b e hs2
    ((FS.existsPath_iff _ _).mpr hT1) ((FS.existsPath_iff _ _).mpr hD0mem1)
    ((FS.existsPath_eq_false _ _).mpr hD1notmem1) hp2mem1 (hok _ _)
  -- facts about the filesystem after the second move
  have hd0p2 : pathJoin target (b ++ e) ≠ p2 := fun h => hd0 (h ▸ hp2)
  have hE2 : ((pathJoin target (b ++ e) :: fs.entries.erase p1).erase p2)
      = pathJoin target (b ++ e) :: (fs.entries.erase p1).erase p2 :=
    List.erase_cons_tail (by simpa using hd0p2)
  have hT2 : target ∈ (pathJoin target (b ++ "_" ++ Nat.repr 1 ++ e) ::
      (pathJoin target (b ++ e) :: fs.entries.erase p1).erase p2) := by
    rw [hE2]
    exact List.mem_cons_of_mem _ (List.mem_cons_of_mem _
      ((List.mem_erase_of_ne (Ne.symm ht2)).mpr
        ((List.mem_erase_of_ne (Ne.symm ht1)).mpr htf)))
  have hD0mem2 : pathJoin target (b ++ e) ∈
      (pathJoin target (b ++ "_" ++ Nat.repr 1 ++ e) ::
        (pathJoin target (b ++ e) :: fs.entries.erase p1).erase p2) := by
    rw [hE2]
    exact List.mem_cons_of_mem _ (List.mem_cons_self _ _)
  have hD1mem2 : pathJoin target (b ++ "_" ++ Nat.repr 1 ++ e) ∈
      (pathJoin target (b ++ "_" ++ Nat.repr 1 ++ e) ::
        (pathJoin target (b ++ e) :: fs.entries.erase p1).erase p2) :=
    List.mem_cons_self _ _
  have hD2notmem2 : pathJoin target (b ++ "_" ++ Nat.repr 2 ++ e) ∉
      (pathJoin target (b ++ "_" ++ Nat.repr 1 ++ e) ::
        (pathJoin target (b ++ e) :: fs.entries.erase p1).erase p2) := by
    rw [hE2]
    intro hmem
    rcases List.mem_cons.mp hmem with h | hmem2
    · exact hD12 h.symm
    rcases List.mem_cons.mp hmem2 with h | hmem3
    · exact hD02 h.symm
    · exact hd2 (List.erase_subset _ _ (List.erase_subset _ _ hmem3))
  have hp3mem2 : p3 ∈ (pathJoin target (b ++ "_" ++ Nat.repr 1 ++ e) ::
      (pathJoin target (b ++ e) :: fs.entries.erase p1).erase p2) := by
    rw [hE2]
    exact List.mem_cons_of_mem _ (List.mem_cons_of_mem _
      ((List.mem_erase_of_ne (Ne.symm h23)).mpr
        ((List.mem_erase_of_ne (Ne.symm h13)).mpr hp3)))
  have hlen2 : 2 ≤ (pathJoin target (b ++ "_" ++ Nat.repr 1 ++ e) ::
      (pathJoin target (b ++ e) :: fs.entries.erase p1).erase p2).length := by
    rw [hE2]
    simp
  -- third move: two collisions, counter 2 is free
  have heq3 := mftf_run_two
    { fs with entries := pathJoin target (b ++ "_" ++ Nat.repr 1 ++ e) :: (pathJoin target (b ++ e) :: fs.entries.erase p1).erase p2 }
    p3 target b e hs3
    ((FS.existsPath_iff _ _).mpr hT2) hlen2
    ((FS.existsPath_iff _ _).mpr hD0mem2) ((FS.existsPath_iff _ _).mpr hD1mem2)
    ((FS.existsPath_eq_false _ _).mpr hD2notmem2) hp3mem2 (hok _ _)
  refine ⟨_, _, _, ?_, heq2, heq3, ?_, ?_, hD12⟩
  · rw [hbn1]
    exact heq1
  · rw [hbn1]
    exact hD01
  · rw [hbn1]
    exact hD02

def fsC3 : FS :=
  { entries := ["t", "x/a.txt", "y/a.txt", "z/a.txt"],
    failMove := fun _ _ => false, renameOverwrites := true }

/-- C3 (witness): three files named "a.txt" moved in sequence into the
existing folder "t" land at "t/a.txt", "t/a_1.txt" and "t/a_2.txt",
pairwise distinct. -/
theorem C3_witness :
    splitext (basename "x/a.txt") = ("a", ".txt") ∧
    (∃ fs1 fs2 fs3 : FS,
      move_file_to_folder fsC3 "x/a.txt" "t" =
        (.ok (pathJoin "t" (basename "x/a.txt")), fs1) ∧
      move_file_to_folder fs1 "y/a.txt" "t" =
        (.ok (pathJoin "t" ("a" ++ "_" ++ Nat.repr 1 ++ ".txt")), fs2) ∧
      move_file_to_folder fs2 "z/a.txt" "t" =
        (.ok (pathJoin "t" ("a" ++ "_" ++ Nat.repr 2 ++ ".txt")), fs3) ∧
      pathJoin "t" (basename "x/a.txt") ≠
        pathJoin "t" ("a" ++ "_" ++ Nat.repr 1 ++ ".txt") ∧
      pathJoin "t" (basename "x/a.txt") ≠
        pathJoin "t" ("a" ++ "_" ++ Nat.repr 2 ++ ".txt") ∧
      pathJoin "t" ("a" ++ "_" ++ Nat.repr 1 ++ ".txt") ≠
        pathJoin "t" ("a" ++ "_" ++ Nat.repr 2 ++ ".txt")) :=
  ⟨by decide,
    C3_collision_counter fsC3 "t" "x/a.txt" "y/a.txt" "z/a.txt" "a" ".txt"
      (by decide) (by decide) (by decide) (by decide) (by decide) (by decide)
      (by decide) (by decide) (by decide) (by decide) (by decide) (by decide)
      (by decide) (by decide) (by decide) (by decide) (by decide) (by decide)
      (fun _ _ => rfl)⟩
